import Mathlib

/-!
Verification development for the compressly image re-encoder.

The JavaScript source (src/App.jsx and its earlier revision in
src/unnamed/part_000) is shallowly embedded here.  Conventions:

* JavaScript numbers are modelled as exact rationals (`ℚ`); byte sizes,
  pixel dimensions and channel values as `ℕ`; the target byte budget as
  `ℤ` (the JS code distinguishes `!targetBytes`, `targetBytes > 0` and
  `targetBytes <= 0`).
* Rational arithmetic inside the embedding uses the kernel-computable
  wrappers `qadd`, `qsub`, `qmul`, `qdiv`, `qmin`, `qmax`, `mkq` below;
  each is proved equal to the corresponding standard operation, so
  theorems are stated and proved in standard notation while concrete
  runs still evaluate.
* `Math.round` is `jround` (= Mathlib's `round`; both round half toward
  positive infinity); `Math.floor` of a nonnegative integer quotient is
  `ℕ` division.
* The browser encoder (`renderScaled` + `canvasToBlobWithFallback`) is an
  oracle `EncOracle : width → height → mime → quality → Option size`;
  `none` models a failed encode (null blob).  Within one compression run
  the pixel content fed to the encoder is a function of the requested
  dimensions and quality, so the oracle abstraction is faithful.
* The intermediate PNG round-trips (`renderScaled` → PNG blob →
  `decodeImage`) that the code uses to hard-resize the working source
  throw on a null blob; this is modelled with `Except Unit`.
-/

/-! ### Kernel-computable rational arithmetic -/

/-- The rational `n / d`, built without the irreducible `Rat` field
instances so that concrete runs reduce inside the kernel. -/
def mkq (n : ℤ) (d : ℕ) : ℚ := mkRat n d

/-- Kernel-computable addition on `ℚ`. -/
def qadd (a b : ℚ) : ℚ :=
  Rat.normalize (a.num * b.den + b.num * a.den) (a.den * b.den)
    (Nat.mul_ne_zero a.den_nz b.den_nz)

/-- Kernel-computable subtraction on `ℚ`. -/
def qsub (a b : ℚ) : ℚ :=
  Rat.normalize (a.num * b.den - b.num * a.den) (a.den * b.den)
    (Nat.mul_ne_zero a.den_nz b.den_nz)

/-- Kernel-computable multiplication on `ℚ`. -/
def qmul (a b : ℚ) : ℚ :=
  Rat.normalize (a.num * b.num) (a.den * b.den)
    (Nat.mul_ne_zero a.den_nz b.den_nz)

/-- Kernel-computable division on `ℚ` (division by zero gives zero, as
for the standard operation). -/
def qdiv (a b : ℚ) : ℚ :=
  if 0 ≤ b.num then mkRat (a.num * b.den) (a.den * b.num.toNat)
  else mkRat (-(a.num * b.den)) (a.den * (-b.num).toNat)

/-- Kernel-computable minimum on `ℚ`. -/
def qmin (a b : ℚ) : ℚ := if a ≤ b then a else b

/-- Kernel-computable maximum on `ℚ`. -/
def qmax (a b : ℚ) : ℚ := if a ≤ b then b else a

/-- `Math.round`: round half toward positive infinity. -/
def jround (x : ℚ) : ℤ := Rat.floor (qadd x (mkq 1 2))

@[simp] theorem qadd_eq (a b : ℚ) : qadd a b = a + b := (Rat.add_def a b).symm

@[simp] theorem qsub_eq (a b : ℚ) : qsub a b = a - b := (Rat.sub_def a b).symm

@[simp] theorem qmul_eq (a b : ℚ) : qmul a b = a * b := (Rat.mul_def a b).symm

@[simp] theorem qmin_eq (a b : ℚ) : qmin a b = min a b := (min_def a b).symm

@[simp] theorem qmax_eq (a b : ℚ) : qmax a b = max a b := (max_def a b).symm

@[simp] theorem mkq_eq (n : ℤ) (d : ℕ) : mkq n d = (n : ℚ) / (d : ℚ) := by
  rw [mkq, Rat.mkRat_eq_divInt, Rat.divInt_eq_div]
  norm_num

theorem ratFloor_eq_floor (q : ℚ) : Rat.floor q = ⌊q⌋ := by
  rw [Rat.floor_def, Rat.floor_def']

@[simp] theorem qdiv_eq (a b : ℚ) : qdiv a b = a / b := by
  rcases eq_or_ne b 0 with rfl | hb
  · rw [qdiv]
    norm_num [Rat.mkRat_eq_divInt]
  · have hda : ((a.den : ℚ)) ≠ 0 := Nat.cast_ne_zero.mpr a.den_nz
    have hdb : ((b.den : ℚ)) ≠ 0 := Nat.cast_ne_zero.mpr b.den_nz
    have hana : (a.num : ℚ) = a * a.den := (div_eq_iff hda).mp (Rat.num_div_den a)
    have hbnb : (b.num : ℚ) = b * b.den := (div_eq_iff hdb).mp (Rat.num_div_den b)
    have key : ((a.num : ℚ) * b.den) / ((a.den : ℚ) * b.num) = a / b := by
      rw [hana, hbnb]
      have h1 : a * (a.den : ℚ) * b.den = a * ((a.den : ℚ) * b.den) := by ring
      have h2 : (a.den : ℚ) * (b * b.den) = b * ((a.den : ℚ) * b.den) := by ring
      rw [h1, h2]
      exact mul_div_mul_right a b (mul_ne_zero hda hdb)
    rcases le_or_lt 0 b.num with hpos | hneg
    · rw [qdiv, if_pos hpos, Rat.mkRat_eq_divInt, Rat.divInt_eq_div, ← key]
      push_cast [Int.toNat_of_nonneg hpos]
      ring
    · rw [qdiv, if_neg (not_le.mpr hneg), Rat.mkRat_eq_divInt, Rat.divInt_eq_div, ← key]
      push_cast [Int.toNat_of_nonneg (by omega : (0 : ℤ) ≤ -b.num)]
      have h3 : (a.den : ℚ) * -(b.num : ℚ) = -((a.den : ℚ) * b.num) := by ring
      rw [h3, ← neg_div_neg_eq (-(a.num * (b.den : ℚ)))]
      ring_nf

@[simp] theorem jround_eq (x : ℚ) : jround x = round x := by
  have h : qadd x (mkq 1 2) = x + 1 / 2 := by
    rw [qadd_eq, mkq_eq]
    norm_num
  rw [jround, h, ratFloor_eq_floor, round_eq]

/-- `Math.round` of a nonnegative quantity, as a natural number. -/
def jroundN (x : ℚ) : ℕ := (jround x).toNat

/-- `Math.round(w * r)`: the dimension-scaling step used throughout the
source. -/
def scaledDim (w : ℕ) (r : ℚ) : ℕ := jroundN (qmul (w : ℚ) r)

theorem jroundN_natCast (n : ℕ) : jroundN (n : ℚ) = n := by
  simp [jroundN, round_natCast]

deriving instance DecidableEq for Except

/-! ### The data model -/

/-- Output codecs the UI can request from `compressFileOptimized`. -/
inductive Mime where
  | jpeg
  | png
  | webp
deriving DecidableEq, Repr

/-- One encoded output buffer: the canvas dimensions and quality it was
encoded at, and the resulting byte size. -/
structure Blob where
  w : ℕ
  h : ℕ
  q : ℚ
  size : ℕ
deriving DecidableEq, Repr

/-- Record of one resample+encode trial performed during a run. -/
structure Attempt where
  w : ℕ
  h : ℕ
  mime : Mime
  q : ℚ
  result : Option ℕ
deriving DecidableEq, Repr

/-- The external encoder: dimensions, codec and quality in, byte size out;
`none` is a failed encode (null blob from the canvas). -/
abbrev EncOracle := ℕ → ℕ → Mime → ℚ → Option ℕ

/-- A decoded raster source. -/
structure SrcImage where
  width : ℕ
  height : ℕ
deriving DecidableEq, Repr

/-- The options object taken by `compressFileOptimized`. -/
structure Opts where
  mime : Mime
  quality : ℚ
  targetBytes : ℤ
  maxWidth : ℕ
  pngOptimized : Bool
deriving DecidableEq, Repr

/-! ### canvasToBlobWithFallback (App.jsx lines 143-174) -/

/-- The `setTimeout` bound (milliseconds) on the primary `canvas.toBlob`
path in `canvasToBlobWithFallback`. -/
def TOBLOB_TIMEOUT_MS : ℕ := 2500

/-- `canvasToBlobWithFallback`: `primary` is the outcome of the
`canvas.toBlob` promise (`none` = threw, timed out, or delivered null),
`fallback` the outcome of the `canvas.toDataURL`/`atob` route (`none` =
threw).  The primary result is kept only if present and non-empty;
otherwise the fallback route's result is returned as is. -/
def canvasToBlobWithFallback (primary fallback : Option ℕ) : Option ℕ :=
  match primary with
  | some s => if 0 < s then some s else fallback
  | none => fallback

/-! ### quantizeImageData (App.jsx lines 367-378) and its call sites -/

/-- One RGBA pixel of an `ImageData`; each channel is a byte stored in a
`Uint8ClampedArray`. -/
structure Pixel where
  r : ℕ
  g : ℕ
  b : ℕ
  a : ℕ
deriving DecidableEq, Repr

/-- `const step = Math.max(1, Math.floor(256 / levels))`. -/
def quantStep (levels : ℕ) : ℕ := max 1 (256 / levels)

/-- `data[i] = Math.round(data[i] / step) * step` — the write goes into a
`Uint8ClampedArray`, which clamps the stored value into `[0, 255]`. -/
def quantChannel (step c : ℕ) : ℕ :=
  min 255 ((jround (qdiv (c : ℚ) (step : ℚ))).toNat * step)

/-- The per-pixel body of the `quantizeImageData` loop: R, G, B are
quantized, alpha is untouched. -/
def quantizePixel (step : ℕ) (p : Pixel) : Pixel :=
  ⟨quantChannel step p.r, quantChannel step p.g, quantChannel step p.b, p.a⟩

/-- `quantizeImageData(imageData, levels)` over the pixel list. -/
def quantizeImageData (levels : ℕ) (img : List Pixel) : List Pixel :=
  img.map (quantizePixel (quantStep levels))

/-- `const levels = Math.max(8, Math.round(q * 48))` — how both call sites
of `quantizeImageData` derive the level count from a quality value. -/
def quantLevels (q : ℚ) : ℕ := max 8 (jround (qmul q 48)).toNat

/-- Modelled from the spec sentence for the claim about the quantizer:
"maps every pixel's R, G and B channels to Math.round(channel/step)*step"
— the unclamped value the claim asserts is stored. -/
def claimedQuantChannel (step c : ℕ) : ℤ := round ((c : ℚ) / (step : ℚ)) * step

/-! ### runCompress target clamp (App.jsx lines 1066-1069, part_000 line 345) -/

/-- `targetKB && Number(targetKB) > 0 ? Math.max(8 * 1024,
Math.round(Number(targetKB) * 1024)) : 0`. -/
def runCompressTargetBytes (targetKB : ℚ) : ℤ :=
  if 0 < targetKB then max (8 * 1024) (jround (qmul targetKB 1024)) else 0

/-! ### quality estimate and long-edge clamps (App.jsx lines 397-404, 469-474) -/

/-- `estimateQualityFromKB` (App.jsx lines 397-404). -/
def estimateQualityFromKB (kbPerPixel : ℚ) : ℚ :=
  if mkq 15 100 < kbPerPixel then mkq 9 10
  else if mkq 1 10 < kbPerPixel then mkq 82 100
  else if mkq 7 100 < kbPerPixel then mkq 3 4
  else if mkq 5 100 < kbPerPixel then mkq 68 100
  else if mkq 35 1000 < kbPerPixel then mkq 6 10
  else mkq 1 2

/-- The `LONG_EDGE_MAX` ladder (App.jsx lines 469-474): sequential
overwrites, so the largest satisfied threshold wins. -/
def LONG_EDGE_MAX (T : ℤ) : ℕ :=
  if 1200 * 1024 < T then 3200
  else if 700 * 1024 < T then 2400
  else if 400 * 1024 < T then 1800
  else if 200 * 1024 < T then 1400
  else 1000

/-! ### blur decision (App.jsx lines 494-508) and renderScaled (lines 196-263) -/

/-- The blur strength chosen by `compressFileOptimized` (lines 494-508):
nonzero only for JPEG, non-png-optimized runs with a positive byte budget
and a very low byte-per-pixel ratio, then capped by `Math.min(blurPx, 0.6)`. -/
def blurPxOf (o : Opts) (kbPerPixel : ℚ) : ℚ :=
  let b : ℚ :=
    if o.mime = Mime.jpeg ∧ o.pngOptimized = false ∧ 0 < o.targetBytes then
      if kbPerPixel < mkq 15 1000 then mkq 55 100
      else if kbPerPixel < mkq 22 1000 then mkq 3 10
      else 0
    else 0
  qmin b (mkq 6 10)

/-- Blur strengths of the progressive-halving draws in `renderScaled`
(the `while (sw / 2 > targetW)` loop, lines 236-248): every halving blit
is drawn with no filter.  The fuel argument (instantiated with the start
width) bounds the halving count. -/
def halveBlurs : ℕ → ℕ → ℕ → List ℚ
  | 0, _, _ => []
  | fuel + 1, sw, tw =>
    if 2 * tw < sw then 0 :: halveBlurs fuel (jroundN (qdiv (sw : ℚ) 2)) tw else []

/-- The sequence of blur strengths of the canvas draws performed by
`renderScaled`: the bitmap fast path is a single blit (filter set only if
`blurPx > 0`); the element path does an unfiltered initial copy, the
unfiltered halving blits, and a final blit that is the only one that may
carry the blur filter. -/
def renderScaledBlurs (isBitmap : Bool) (blurPx : ℚ) (sw tw : ℕ) : List ℚ :=
  let f : ℚ := if 0 < blurPx then blurPx else 0
  if isBitmap then [f]
  else 0 :: (halveBlurs sw sw tw ++ [f])

/-! ### Phase 1 — aggressive quality search (App.jsx lines 576-657) -/

/-- `const Q_ITER = 10`. -/
def Q_ITER : ℕ := 10

/-- `const TARGET_TOLERANCE = 0.98`. -/
def TARGET_TOLERANCE : ℚ := mkq 98 100

/-- Mutable state of the Phase-1 loop: the quality window and the
`bestBlob` / `bestSize` pair (two separate variables in the source,
`bestSize` initialized to `0`). -/
structure P1State where
  lowQ : ℚ
  highQ : ℚ
  bestBlob : Option Blob
  bestSize : ℕ
deriving DecidableEq, Repr

/-- Outcome of running the Phase-1 loop: an early `return blob` from
inside the loop, or falling out with the final state. -/
inductive P1Res where
  | early (b : Blob)
  | finished (st : P1State)
deriving DecidableEq, Repr

/-- The midpoint quality `const q = (lowQ + highQ) / 2` of a Phase-1
iteration. -/
def p1Mid (st : P1State) : ℚ := qdiv (qadd st.lowQ st.highQ) 2

theorem p1Mid_eq (st : P1State) : p1Mid st = (st.lowQ + st.highQ) / 2 := by
  simp [p1Mid]

/-- One iteration of the Phase-1 loop (lines 594-643): encode at the
midpoint quality; a null blob `continue`s with the state untouched; an
under-target size is recorded as candidate if it beats `bestSize`, and
returned at once when within the tolerance band; otherwise the bisection
bounds are updated (`highQ = q` when over target, else `lowQ = q`). -/
def phase1Step (enc : EncOracle) (mime : Mime) (T : ℤ) (w h : ℕ) (st : P1State) :
    Attempt × P1Res :=
  let q := p1Mid st
  match enc w h mime q with
  | none => (⟨w, h, mime, q, none⟩, P1Res.finished st)
  | some s =>
    if (s : ℤ) ≤ T ∧ qmul (T : ℚ) TARGET_TOLERANCE ≤ (s : ℚ) then
      (⟨w, h, mime, q, some s⟩, P1Res.early ⟨w, h, q, s⟩)
    else
      let upd : Option Blob × ℕ :=
        if (s : ℤ) ≤ T then
          if st.bestBlob.isNone ∨ st.bestSize < s then (some ⟨w, h, q, s⟩, s)
          else (st.bestBlob, st.bestSize)
        else (st.bestBlob, st.bestSize)
      if T < (s : ℤ) then
        (⟨w, h, mime, q, some s⟩, P1Res.finished ⟨st.lowQ, q, upd.1, upd.2⟩)
      else
        (⟨w, h, mime, q, some s⟩, P1Res.finished ⟨q, st.highQ, upd.1, upd.2⟩)

/-- The Phase-1 `for (let i = 0; i < Q_ITER; i++)` loop, by fuel, also
returning the attempts it performed. -/
def phase1Loop (enc : EncOracle) (mime : Mime) (T : ℤ) (w h : ℕ) :
    ℕ → P1State → List Attempt × P1Res
  | 0, st => ([], P1Res.finished st)
  | n + 1, st =>
    match phase1Step enc mime T w h st with
    | (att, P1Res.early b) => ([att], P1Res.early b)
    | (att, P1Res.finished st1) =>
      let rest := phase1Loop enc mime T w h n st1
      (att :: rest.1, rest.2)

/-- Initial Phase-1 state (lines 579-583): the quality window seeded from
`estimatedQ`, no candidate, `bestSize = 0`. -/
def p1Init (estimatedQ : ℚ) : P1State :=
  ⟨qmax (mkq 1 10) (qsub estimatedQ (mkq 15 100)),
   qmin (mkq 95 100) (qadd estimatedQ (mkq 15 100)), none, 0⟩

/-! ### Phase 2 — downscale ladder (App.jsx lines 660-698) -/

/-- `const MAX_DOWNS = 8`. -/
def MAX_DOWNS : ℕ := 8

/-- The inner quality sweep runs `for (let qIter = 0; qIter < 5; qIter++)`. -/
def P2_INNER_ITERS : ℕ := 5

/-- `const factor = attempt === 0 ? 0.88 : 0.78`. -/
def phase2Factor (attempt : ℕ) : ℚ := if attempt = 0 then mkq 88 100 else mkq 78 100

/-- `const q = 0.12 + 0.86 * (1 - qIter / 5)` — the descending quality
sweep of a downscale round. -/
def sweepQ (qIter : ℕ) : ℚ :=
  qadd (mkq 12 100) (qmul (mkq 86 100) (qsub 1 (qdiv (qIter : ℚ) 5)))

/-- Result of a Phase-2 loop: attempts performed, the `foundLocal` blob
returned from inside the loop (if any), and the final `bestBlob` /
`bestSize` pair. -/
structure P2Out where
  atts : List Attempt
  found : Option Blob
  bestBlob : Option Blob
  bestSize : ℕ
deriving DecidableEq, Repr

/-- The inner quality sweep of one downscale round (lines 672-692): a
null blob `continue`s; the first at-or-under-budget blob becomes
`foundLocal` and breaks; an over-budget blob updates `bestBlob` only when
strictly smaller than `bestSize`. -/
def phase2Inner (enc : EncOracle) (mime : Mime) (T : ℤ) (w h : ℕ) :
    ℕ → ℕ → Option Blob → ℕ → P2Out
  | _, 0, best, bsize => ⟨[], none, best, bsize⟩
  | qIter, rem + 1, best, bsize =>
    let q := sweepQ qIter
    match enc w h mime q with
    | none =>
      let rest := phase2Inner enc mime T w h (qIter + 1) rem best bsize
      ⟨⟨w, h, mime, q, none⟩ :: rest.atts, rest.found, rest.bestBlob, rest.bestSize⟩
    | some s =>
      if (s : ℤ) ≤ T then ⟨[⟨w, h, mime, q, some s⟩], some ⟨w, h, q, s⟩, best, bsize⟩
      else
        let best2 : Option Blob × ℕ :=
          if s < bsize then (some ⟨w, h, q, s⟩, s) else (best, bsize)
        let rest := phase2Inner enc mime T w h (qIter + 1) rem best2.1 best2.2
        ⟨⟨w, h, mime, q, some s⟩ :: rest.atts, rest.found, rest.bestBlob, rest.bestSize⟩

/-- The outer downscale ladder (lines 665-698): shrink `currentW` by the
round factor, stop (`break`) once it drops under 200, otherwise run the
inner sweep at the new resolution and return `foundLocal` when it hit. -/
def phase2Outer (enc : EncOracle) (mime : Mime) (T : ℤ) (aspect : ℚ) :
    ℕ → ℕ → ℕ → Option Blob → ℕ → P2Out
  | _, 0, _, best, bsize => ⟨[], none, best, bsize⟩
  | attempt, rem + 1, currentW, best, bsize =>
    let w2 := jroundN (qmul (currentW : ℚ) (phase2Factor attempt))
    if w2 < 200 then ⟨[], none, best, bsize⟩
    else
      let h2 := scaledDim w2 aspect
      let inner := phase2Inner enc mime T w2 h2 0 P2_INNER_ITERS best bsize
      match inner.found with
      | some fb => ⟨inner.atts, some fb, inner.bestBlob, inner.bestSize⟩
      | none =>
        let rest :=
          phase2Outer enc mime T aspect (attempt + 1) rem w2 inner.bestBlob inner.bestSize
        ⟨inner.atts ++ rest.atts, rest.found, rest.bestBlob, rest.bestSize⟩

/-! ### The full compressFileOptimized pipeline (App.jsx lines 380-714) -/

/-- The budgeted part of `compressFileOptimized` (lines 576-713): Phase 1
quality bisection, the post-loop candidate returns, Phase 2 downscale
ladder, the (dead, by the `bestSize` initialization) post-ladder best
return, and the final best-effort encode at quality `0.12`. -/
def budgetSearch (enc : EncOracle) (mime : Mime) (T : ℤ) (estimatedQ aspect : ℚ)
    (targetW targetH initialW : ℕ) : List Attempt × Option Blob :=
  match phase1Loop enc mime T targetW targetH Q_ITER (p1Init estimatedQ) with
  | (a1, P1Res.early b) => (a1, some b)
  | (a1, P1Res.finished st) =>
    if st.bestBlob.isSome ∧
        ((st.bestSize : ℤ) ≤ T ∨ (st.bestSize : ℚ) ≤ qmul (T : ℚ) (mkq 102 100)) then
      (a1, st.bestBlob)
    else
      let p2 := phase2Outer enc mime T aspect 0 MAX_DOWNS targetW st.bestBlob st.bestSize
      match p2.found with
      | some fb => (a1 ++ p2.atts, some fb)
      | none =>
        match p2.bestBlob with
        | some b => (a1 ++ p2.atts, some b)
        | none =>
          let finalW := max 400 (jroundN (qmul (initialW : ℚ) (mkq 6 10)))
          let finalH := scaledDim finalW aspect
          let r := enc finalW finalH mime (mkq 12 100)
          (a1 ++ p2.atts ++ [⟨finalW, finalH, mime, mkq 12 100, r⟩],
           r.map fun s => ⟨finalW, finalH, mkq 12 100, s⟩)

/-- One conditional hard-resize of the working source: `renderScaled` to
the new dimensions, encode to PNG at quality 1, decode back.  A null blob
would make `decodeImage` throw, modelled as `Except.error`. -/
def stepRoundtrip (enc : EncOracle) (cond : Prop) [Decidable cond] (w h nw nh : ℕ) :
    List Attempt × Except Unit (ℕ × ℕ) :=
  if cond then
    match enc nw nh Mime.png 1 with
    | none => ([⟨nw, nh, Mime.png, 1, none⟩], Except.error ())
    | some s => ([⟨nw, nh, Mime.png, 1, some s⟩], Except.ok (nw, nh))
  else ([], Except.ok (w, h))

/-- The `ABS_MAX = 8192` long-edge clamp (lines 542-547); a pure
dimension computation (no re-encode). -/
def absClamp (w h : ℕ) : ℕ × ℕ :=
  if 8192 < w ∨ 8192 < h then
    (scaledDim w (qdiv (8192 : ℚ) (max w h : ℚ)), scaledDim h (qdiv (8192 : ℚ) (max w h : ℚ)))
  else (w, h)

/-- The working target dimensions of lines 549-556: `initialW` is the
`ABS_MAX`-clamped width further clamped by the `maxWidth` hint
(`initialW = Math.round(initialW * (maxWidth / initialW))`), and the
height follows the aspect ratio of the clamped source. -/
def codeTargetDims (w3 h3 maxWidth : ℕ) : ℕ × ℕ :=
  let c := absClamp w3 h3
  let initialW :=
    if maxWidth ≠ 0 ∧ maxWidth < c.1 then scaledDim c.1 (qdiv (maxWidth : ℚ) (c.1 : ℚ))
    else c.1
  (initialW, scaledDim initialW (qdiv (c.2 : ℚ) (c.1 : ℚ)))

/-- Tail of `compressFileOptimized` from line 538 on, after the working
source has been fixed: the `ABS_MAX` clamp, the `maxWidth` clamp, the
no-budget single encode (lines 560-572), or the budgeted search. -/
def compressTail (enc : EncOracle) (o : Opts) (w3 h3 : ℕ) (estimatedQ : ℚ)
    (preAtts : List Attempt) : List Attempt × Except Unit (Option Blob) :=
  let td := codeTargetDims w3 h3 o.maxWidth
  if o.targetBytes ≤ 0 then
    let r := enc td.1 td.2 o.mime o.quality
    (preAtts ++ [⟨td.1, td.2, o.mime, o.quality, r⟩],
     Except.ok (r.map fun s => ⟨td.1, td.2, o.quality, s⟩))
  else
    let aspect : ℚ := qdiv ((absClamp w3 h3).2 : ℚ) ((absClamp w3 h3).1 : ℚ)
    let bs := budgetSearch enc o.mime o.targetBytes estimatedQ aspect td.1 td.2 td.1
    (preAtts ++ bs.1, Except.ok bs.2)

/-- `compressFileOptimized(fileBlob, opts)` for an already decoded source:
quality estimation, the three conditional hard resizes of the working
source (slider-only safeguard, extreme-target `scaleFactor`,
`LONG_EDGE_MAX` clamp), the early-exit probe, then `compressTail`.
Returns the attempts performed and either an exception (a hard resize
whose PNG round-trip produced a null blob) or the returned blob
(`none` = the JS function returned null). -/
def compressRun (enc : EncOracle) (src : SrcImage) (o : Opts) :
    List Attempt × Except Unit (Option Blob) :=
  let w0 := src.width
  let h0 := src.height
  let kbPerPixel : ℚ := qdiv (o.targetBytes : ℚ) (qmul (w0 : ℚ) (h0 : ℚ))
  let estimatedQ : ℚ :=
    if 0 < o.targetBytes ∧ o.mime = Mime.jpeg ∧ o.pngOptimized = false ∧
        o.quality < mkq 85 100 then
      estimateQualityFromKB kbPerPixel
    else o.quality
  let scaleFactor : ℚ :=
    if o.mime = Mime.jpeg ∧ 0 < o.targetBytes ∧ o.pngOptimized = false ∧
        kbPerPixel < mkq 12 1000 then mkq 8 10
    else 1
  match stepRoundtrip enc
      (o.targetBytes = 0 ∧ o.mime = Mime.jpeg ∧ o.quality < mkq 45 100 ∧ 800 < max w0 h0)
      w0 h0 (scaledDim w0 (qdiv (800 : ℚ) (max w0 h0 : ℚ)))
      (scaledDim h0 (qdiv (800 : ℚ) (max w0 h0 : ℚ))) with
  | (a1, Except.error e) => (a1, Except.error e)
  | (a1, Except.ok (w1, h1)) =>
    match stepRoundtrip enc (scaleFactor < 1) w1 h1
        (scaledDim w1 scaleFactor) (scaledDim h1 scaleFactor) with
    | (a2, Except.error e) => (a1 ++ a2, Except.error e)
    | (a2, Except.ok (w2, h2)) =>
      match stepRoundtrip enc
          (o.mime = Mime.jpeg ∧ LONG_EDGE_MAX o.targetBytes < max w2 h2) w2 h2
          (scaledDim w2 (qdiv ((LONG_EDGE_MAX o.targetBytes : ℕ) : ℚ) (max w2 h2 : ℚ)))
          (scaledDim h2 (qdiv ((LONG_EDGE_MAX o.targetBytes : ℕ) : ℚ) (max w2 h2 : ℚ))) with
      | (a3, Except.error e) => (a1 ++ a2 ++ a3, Except.error e)
      | (a3, Except.ok (w3, h3)) =>
        let preAtts := a1 ++ a2 ++ a3
        if o.pngOptimized = false ∧ o.mime = Mime.jpeg ∧ 0 < o.targetBytes then
          match enc w3 h3 o.mime estimatedQ with
          | some s =>
            if (s : ℤ) ≤ o.targetBytes ∧ qmul (o.targetBytes : ℚ) (mkq 95 100) ≤ (s : ℚ) then
              (preAtts ++ [⟨w3, h3, o.mime, estimatedQ, some s⟩],
               Except.ok (some ⟨w3, h3, estimatedQ, s⟩))
            else
              compressTail enc o w3 h3 estimatedQ
                (preAtts ++ [⟨w3, h3, o.mime, estimatedQ, some s⟩])
          | none =>
            compressTail enc o w3 h3 estimatedQ
              (preAtts ++ [⟨w3, h3, o.mime, estimatedQ, none⟩])
        else compressTail enc o w3 h3 estimatedQ preAtts

/-- Modelled from the spec sentence for the no-budget claim: "output
dimensions equal the source dimensions clamped only by the 8192 px
absolute long-edge ceiling and any explicit max-width hint". -/
def specNoBudgetDims (src : SrcImage) (maxWidth : ℕ) : ℕ × ℕ :=
  let c := absClamp src.width src.height
  if maxWidth ≠ 0 ∧ maxWidth < c.1 then
    (maxWidth, jroundN (qmul (maxWidth : ℚ) (qdiv (c.2 : ℚ) (c.1 : ℚ))))
  else (c.1, jroundN (qmul (c.1 : ℚ) (qdiv (c.2 : ℚ) (c.1 : ℚ))))

/-! ### Helper lemmas -/

theorem stepRoundtrip_not (enc : EncOracle) (cond : Prop) [Decidable cond]
    (hc : ¬cond) (w h nw nh : ℕ) :
    stepRoundtrip enc cond w h nw nh = ([], Except.ok (w, h)) := by
  rw [stepRoundtrip, if_neg hc]

theorem halveBlurs_all_zero (tw : ℕ) :
    ∀ fuel sw, ∀ x ∈ halveBlurs fuel sw tw, x = 0 := by
  intro fuel
  induction fuel with
  | zero => intro sw x hx; simp [halveBlurs] at hx
  | succ n ih =>
    intro sw x hx
    rw [halveBlurs] at hx
    by_cases h : 2 * tw < sw
    · rw [if_pos h, List.mem_cons] at hx
      rcases hx with hx | hx
      · exact hx
      · exact ih _ x hx
    · rw [if_neg h] at hx
      simp at hx

/-! ### C6 — encoder fallback contract -/

/-- C6 (confirmed): the primary `canvas.toBlob` path of
`canvasToBlobWithFallback` is bounded by a 2500 ms timeout (within the
claimed 2.5-3 s); a missing, erroring, timed-out, or empty primary result
makes the function fall through to the data-URL fallback route; a null
result is surfaced only when the primary path failed or was empty and the
fallback route also failed. -/
theorem encode_fallback_contract (primary fallback : Option ℕ) :
    2500 ≤ TOBLOB_TIMEOUT_MS ∧ TOBLOB_TIMEOUT_MS ≤ 3000 ∧
    ((primary = none ∨ primary = some 0) →
      canvasToBlobWithFallback primary fallback = fallback) ∧
    (∀ s, primary = some s → 0 < s →
      canvasToBlobWithFallback primary fallback = some s) ∧
    (canvasToBlobWithFallback primary fallback = none ↔
      (primary = none ∨ primary = some 0) ∧ fallback = none) := by
  refine ⟨by norm_num [TOBLOB_TIMEOUT_MS], by norm_num [TOBLOB_TIMEOUT_MS], ?_, ?_, ?_⟩
  · rintro (h | h) <;> subst h <;> simp [canvasToBlobWithFallback]
  · rintro s rfl hs
    simp [canvasToBlobWithFallback, hs]
  · cases primary with
    | none => simp [canvasToBlobWithFallback]
    | some s =>
      rcases Nat.eq_zero_or_pos s with rfl | hs
      · simp [canvasToBlobWithFallback]
      · simp [canvasToBlobWithFallback, hs, hs.ne']

/-- Witness for the C6 theorem at a concrete input: a failed primary path
falls through to the fallback result. -/
theorem encode_fallback_contract_witness :
    canvasToBlobWithFallback none (some 7) = some 7 :=
  (encode_fallback_contract none (some 7)).2.2.1 (Or.inl rfl)

/-! ### C7 — 8 KiB target floor -/

/-- C7 (confirmed): for a positive `targetKB` the effective byte target is
`max(8192, round(targetKB * 1024))`; `targetKB = 1` yields exactly the
same target as `targetKB = 8`, namely 8192 bytes, and every positive
target below 8 KiB is clamped up to 8 KiB. -/
theorem target_floor_clamp (kb : ℚ) :
    (0 < kb → runCompressTargetBytes kb = max 8192 (round (kb * 1024))) ∧
    runCompressTargetBytes 1 = runCompressTargetBytes 8 ∧
    runCompressTargetBytes 1 = 8192 ∧
    (0 < kb → kb < 8 → runCompressTargetBytes kb = 8192) := by
  refine ⟨fun hpos => ?_, by decide, by decide, fun h h8 => ?_⟩
  · rw [runCompressTargetBytes, if_pos hpos]
    simp only [jround_eq, qmul_eq]
    norm_num
  rw [runCompressTargetBytes, if_pos h]
  simp only [jround_eq, qmul_eq]
  have h1 : ((round (kb * 1024) : ℤ) : ℚ) ≤ kb * 1024 + 1 / 2 := round_le_add_half _
  have h2 : ((round (kb * 1024) : ℤ) : ℚ) < 8193 := by nlinarith
  have h3 : round (kb * 1024) < 8193 := by exact_mod_cast h2
  have hmax : max (8 * 1024 : ℤ) (round (kb * 1024)) = 8 * 1024 := max_eq_left (by omega)
  rw [hmax]
  norm_num

/-- Witness for the C7 theorem: a 1 KB request yields the 8192-byte floor. -/
theorem target_floor_clamp_witness : runCompressTargetBytes 1 = 8192 :=
  (target_floor_clamp 1).2.2.2 (by norm_num) (by norm_num)

/-! ### C10 — the png-optimized quantizer -/

/-- C10 (counterexample): with quality 1/2 the level count is 24 and the
step 10; the claim says channel 255 is mapped to
`Math.round(255/10)*10 = 260`, but the `Uint8ClampedArray` store clamps
the written value to 255, so the pixel `(255, 10, 20, 200)` is in fact
left unchanged — the claimed mapping and the stored value disagree. -/
theorem quantize_clamp_counterexample :
    quantizeImageData (quantLevels (mkq 1 2)) [⟨255, 10, 20, 200⟩] = [⟨255, 10, 20, 200⟩] ∧
    claimedQuantChannel (quantStep (quantLevels (mkq 1 2))) 255 = 260 ∧
    quantStep (quantLevels (mkq 1 2)) = 10 ∧ quantLevels (mkq 1 2) = 24 := by
  refine ⟨by decide, ?_, by decide, by decide⟩
  have h : claimedQuantChannel (quantStep (quantLevels (mkq 1 2))) 255 =
      jround (qdiv ((255 : ℕ) : ℚ) ((quantStep (quantLevels (mkq 1 2)) : ℕ) : ℚ)) *
        (quantStep (quantLevels (mkq 1 2)) : ℤ) := by
    simp only [claimedQuantChannel, jround_eq, qdiv_eq]
  rw [h]
  decide

/-- Modelled from the amended claim: each R, G, B channel is mapped to
`min(255, Math.round(channel/step)*step)` (the `Uint8ClampedArray` store
clamps at 255) with `step = max(1, floor(256/levels))`, alpha is
untouched, and `levels = max(8, Math.round(quality*48))`. -/
def amendedQuantPixel (quality : ℚ) (p : Pixel) : Pixel :=
  let levels := max 8 (round (quality * 48)).toNat
  let step := max 1 (256 / levels)
  ⟨min 255 ((round ((p.r : ℚ) / (step : ℚ))).toNat * step),
   min 255 ((round ((p.g : ℚ) / (step : ℚ))).toNat * step),
   min 255 ((round ((p.b : ℚ) / (step : ℚ))).toNat * step),
   p.a⟩

/-- C10 (amended, proved): in the png-optimized mode the quantizer maps
every pixel exactly as `amendedQuantPixel` describes: R, G, B become
`min(255, round(channel/step)*step)` with `step = max(1, floor(256/levels))`
and `levels = max(8, round(quality*48))`, and alpha is unchanged. -/
theorem quantize_amended (q : ℚ) (img : List Pixel) :
    quantizeImageData (quantLevels q) img = img.map (amendedQuantPixel q) := by
  unfold quantizeImageData
  congr 1
  funext p
  simp only [quantizePixel, quantChannel, quantStep, quantLevels, amendedQuantPixel,
    jround_eq, qdiv_eq, qmul_eq]

/-! ### C8 — blur policy -/

/-- C8 (confirmed): the blur strength is zero whenever the request has no
positive byte budget; when set it lies in `[0, 0.6]`; and inside
`renderScaled` every draw except the last one is unfiltered — the blur
(when positive) is applied only on the final blit. -/
theorem blur_policy (o : Opts) (kbPerPixel : ℚ) (isBitmap : Bool) (bp : ℚ) (sw tw : ℕ) :
    (o.targetBytes ≤ 0 → blurPxOf o kbPerPixel = 0) ∧
    0 ≤ blurPxOf o kbPerPixel ∧ blurPxOf o kbPerPixel ≤ 6 / 10 ∧
    (∀ x ∈ (renderScaledBlurs isBitmap bp sw tw).dropLast, x = 0) ∧
    (renderScaledBlurs isBitmap bp sw tw).getLast? = some (if 0 < bp then bp else 0) := by
  refine ⟨?_, ?_, ?_, ?_, ?_⟩
  · intro hT
    have hc : ¬(o.mime = Mime.jpeg ∧ o.pngOptimized = false ∧ 0 < o.targetBytes) := by
      rintro ⟨-, -, h⟩
      omega
    simp only [blurPxOf, if_neg hc, qmin_eq, mkq_eq]
    norm_num
  · simp only [blurPxOf, qmin_eq, mkq_eq]
    split_ifs <;> norm_num
  · simp only [blurPxOf, qmin_eq, mkq_eq]
    split_ifs <;> norm_num
  · cases isBitmap with
    | true => simp [renderScaledBlurs]
    | false =>
      intro x hx
      rw [renderScaledBlurs] at hx
      simp only [Bool.false_eq_true, if_false] at hx
      rw [show (0 : ℚ) :: (halveBlurs sw sw tw ++
            [if 0 < bp then bp else 0]) =
          ((0 : ℚ) :: halveBlurs sw sw tw) ++ [if 0 < bp then bp else 0] from rfl,
        List.dropLast_concat, List.mem_cons] at hx
      rcases hx with rfl | hx
      · rfl
      · exact halveBlurs_all_zero tw sw sw x hx
  · cases isBitmap with
    | true => simp [renderScaledBlurs]
    | false =>
      rw [renderScaledBlurs]
      simp only [Bool.false_eq_true, if_false]
      rw [show (0 : ℚ) :: (halveBlurs sw sw tw ++
            [if 0 < bp then bp else 0]) =
          ((0 : ℚ) :: halveBlurs sw sw tw) ++ [if 0 < bp then bp else 0] from rfl,
        List.getLast?_concat]

/-- Witness for the C8 theorem: a run with no byte budget has blur
strength zero, and a positive blur strength appears only on the final
blit of the element path. -/
theorem blur_policy_witness :
    blurPxOf ⟨Mime.jpeg, mkq 82 100, 0, 0, false⟩ (mkq 1 100) = 0 ∧
    (renderScaledBlurs false (mkq 1 2) 1600 400).getLast? = some (mkq 1 2) := by
  constructor
  · exact (blur_policy ⟨Mime.jpeg, mkq 82 100, 0, 0, false⟩ (mkq 1 100) false
      (mkq 1 2) 1600 400).1 le_rfl
  · have h := (blur_policy ⟨Mime.jpeg, mkq 82 100, 0, 0, false⟩ (mkq 1 100) false
      (mkq 1 2) 1600 400).2.2.2.2
    rw [if_pos (by norm_num [mkq_eq] : (0 : ℚ) < mkq 1 2)] at h
    exact h

/-! ### Phase-1 step characterization -/

theorem phase1Step_none (enc : EncOracle) (mime : Mime) (T : ℤ) (w h : ℕ) (st : P1State)
    (hn : enc w h mime (p1Mid st) = none) :
    phase1Step enc mime T w h st =
      (⟨w, h, mime, p1Mid st, none⟩, P1Res.finished st) := by
  rw [phase1Step]
  simp only [hn]

theorem phase1Step_some (enc : EncOracle) (mime : Mime) (T : ℤ) (w h : ℕ) (st : P1State)
    (s : ℕ) (hs : enc w h mime (p1Mid st) = some s) :
    phase1Step enc mime T w h st =
      (⟨w, h, mime, p1Mid st, some s⟩,
       if (s : ℤ) ≤ T ∧ qmul (T : ℚ) TARGET_TOLERANCE ≤ (s : ℚ) then
         P1Res.early ⟨w, h, p1Mid st, s⟩
       else if T < (s : ℤ) then
         P1Res.finished ⟨st.lowQ, p1Mid st, st.bestBlob, st.bestSize⟩
       else
         P1Res.finished
           ⟨p1Mid st, st.highQ,
            if st.bestBlob.isNone ∨ st.bestSize < s then some ⟨w, h, p1Mid st, s⟩
            else st.bestBlob,
            if st.bestBlob.isNone ∨ st.bestSize < s then s else st.bestSize⟩) := by
  rw [phase1Step]
  simp only [hs]
  split_ifs <;> simp_all <;> omega

theorem phase1Step_early (enc : EncOracle) (mime : Mime) (T : ℤ) (w h : ℕ) (st : P1State)
    (att : Attempt) (b : Blob)
    (hst : phase1Step enc mime T w h st = (att, P1Res.early b)) :
    (b.size : ℤ) ≤ T ∧ qmul (T : ℚ) TARGET_TOLERANCE ≤ (b.size : ℚ) := by
  rcases henc : enc w h mime (p1Mid st) with _ | s
  · rw [phase1Step_none enc mime T w h st henc] at hst
    simp [Prod.ext_iff] at hst
  · rw [phase1Step_some enc mime T w h st s henc] at hst
    by_cases hband : (s : ℤ) ≤ T ∧ qmul (T : ℚ) TARGET_TOLERANCE ≤ (s : ℚ)
    · rw [if_pos hband] at hst
      have hb : b = ⟨w, h, p1Mid st, s⟩ := by
        have := (Prod.ext_iff.mp hst).2
        exact (P1Res.early.injEq .. ▸ this).symm
      rw [hb]
      exact hband
    · rw [if_neg hband] at hst
      split_ifs at hst <;> simp [Prod.ext_iff] at hst

theorem phase1Loop_length (enc : EncOracle) (mime : Mime) (T : ℤ) (w h : ℕ) :
    ∀ n st, (phase1Loop enc mime T w h n st).1.length ≤ n := by
  intro n
  induction n with
  | zero => intro st; simp [phase1Loop]
  | succ k ih =>
    intro st
    rw [phase1Loop]
    rcases hst : phase1Step enc mime T w h st with ⟨att, res⟩
    cases res with
    | early b => simp
    | finished st1 =>
      simp only [List.length_cons]
      exact Nat.succ_le_succ (ih st1)

theorem phase1Loop_early_band (enc : EncOracle) (mime : Mime) (T : ℤ) (w h : ℕ) :
    ∀ n st b, (phase1Loop enc mime T w h n st).2 = P1Res.early b →
      (b.size : ℤ) ≤ T ∧ qmul (T : ℚ) TARGET_TOLERANCE ≤ (b.size : ℚ) := by
  intro n
  induction n with
  | zero => intro st b hb; simp [phase1Loop] at hb
  | succ k ih =>
    intro st b hb
    rw [phase1Loop] at hb
    rcases hst : phase1Step enc mime T w h st with ⟨att, res⟩
    rw [hst] at hb
    cases res with
    | early b0 =>
      simp only at hb
      cases hb
      exact phase1Step_early enc mime T w h st att b hst
    | finished st1 =>
      simp only at hb
      exact ih st1 b hb

/-! ### C3 — Phase-1 bisection -/

/-- C3 (confirmed): each Phase-1 iteration encodes at the midpoint of the
quality window; an under-target size inside the tolerance band
(`s ≥ 0.98 T`, with `0.98` in the claimed 95-98% band) is returned at
once; an under-target size outside the band is retained (keeping the
largest seen) and moves `lowQ` up to the midpoint; an over-target size
moves `highQ` down to the midpoint; and the loop is bounded by
`Q_ITER = 10` iterations (within the claimed 8-12). -/
theorem phase1_bisection (enc : EncOracle) (mime : Mime) (T : ℤ) (w h : ℕ) (st : P1State) :
    Q_ITER = 10 ∧ 8 ≤ Q_ITER ∧ Q_ITER ≤ 12 ∧
    (95 : ℚ) / 100 ≤ TARGET_TOLERANCE ∧ TARGET_TOLERANCE ≤ 98 / 100 ∧
    (phase1Step enc mime T w h st).1.q = (st.lowQ + st.highQ) / 2 ∧
    (∀ s, enc w h mime ((st.lowQ + st.highQ) / 2) = some s →
      (((s : ℤ) ≤ T ∧ (T : ℚ) * TARGET_TOLERANCE ≤ (s : ℚ)) →
        (phase1Step enc mime T w h st).2 =
          P1Res.early ⟨w, h, (st.lowQ + st.highQ) / 2, s⟩) ∧
      (((s : ℤ) ≤ T ∧ ¬((T : ℚ) * TARGET_TOLERANCE ≤ (s : ℚ))) →
        (phase1Step enc mime T w h st).2 =
          P1Res.finished
            ⟨(st.lowQ + st.highQ) / 2, st.highQ,
             if st.bestBlob.isNone ∨ st.bestSize < s then
               some ⟨w, h, (st.lowQ + st.highQ) / 2, s⟩
             else st.bestBlob,
             if st.bestBlob.isNone ∨ st.bestSize < s then s else st.bestSize⟩) ∧
      (T < (s : ℤ) →
        (phase1Step enc mime T w h st).2 =
          P1Res.finished ⟨st.lowQ, (st.lowQ + st.highQ) / 2, st.bestBlob, st.bestSize⟩)) ∧
    (∀ b, (phase1Loop enc mime T w h Q_ITER st).2 = P1Res.early b →
      (b.size : ℤ) ≤ T ∧ (T : ℚ) * TARGET_TOLERANCE ≤ (b.size : ℚ)) ∧
    (phase1Loop enc mime T w h Q_ITER st).1.length ≤ Q_ITER := by
  have hmid : p1Mid st = (st.lowQ + st.highQ) / 2 := p1Mid_eq st
  have htol : qmul (T : ℚ) TARGET_TOLERANCE = (T : ℚ) * TARGET_TOLERANCE := qmul_eq _ _
  refine ⟨rfl, by norm_num [Q_ITER], by norm_num [Q_ITER],
    by norm_num [TARGET_TOLERANCE, mkq_eq], by norm_num [TARGET_TOLERANCE, mkq_eq],
    ?_, ?_, ?_, phase1Loop_length enc mime T w h Q_ITER st⟩
  · rcases henc : enc w h mime (p1Mid st) with _ | s
    · rw [phase1Step_none enc mime T w h st henc, ← hmid]
    · rw [phase1Step_some enc mime T w h st s henc]
      simp [hmid]
  · intro s hs
    rw [← hmid] at hs
    rw [phase1Step_some enc mime T w h st s hs]
    refine ⟨fun hband => ?_, fun hband => ?_, fun hgt => ?_⟩
    · rw [if_pos (by rw [htol]; exact hband), ← hmid]
    · rw [if_neg (by rw [htol]; exact fun hc => hband.2 hc.2),
        if_neg (not_lt.mpr hband.1), ← hmid]
    · rw [if_neg (by rw [htol]; exact fun hc => absurd hgt (not_lt.mpr hc.1)),
        if_pos hgt, ← hmid]
  · intro b hb
    have := phase1Loop_early_band enc mime T w h Q_ITER st b hb
    rwa [htol] at this

/-- Witness for the C3 theorem: with a constant encoder returning 98
bytes and budget 100, the first step encodes at the midpoint 1/2 and
returns early inside the tolerance band. -/
theorem phase1_bisection_witness :
    (phase1Step (fun _ _ _ _ => some 98) Mime.jpeg 100 10 10 ⟨mkq 1 2, mkq 1 2, none, 0⟩).2 =
      P1Res.early ⟨10, 10, (mkq 1 2 + mkq 1 2) / 2, 98⟩ := by
  have h := (phase1_bisection (fun _ _ _ _ => some 98) Mime.jpeg 100 10 10
    ⟨mkq 1 2, mkq 1 2, none, 0⟩).2.2.2.2.2.2.1 98 rfl
  exact h.1 (by constructor <;> norm_num [TARGET_TOLERANCE, mkq_eq])

/-! ### C9 — transient encode failures keep the search window -/

/-- C9 (confirmed): a failed encode (null blob) inside the Phase-1 loop
leaves the whole state — `lowQ`, `highQ` and the best candidate —
unchanged and the loop just continues; a failed encode inside the Phase-2
inner sweep likewise continues to the next sweep step with the
carried best state untouched. -/
theorem transient_failure_keeps_window (enc : EncOracle) (mime : Mime) (T : ℤ)
    (w h : ℕ) (st : P1State) (qIter rem : ℕ) (best : Option Blob) (bsize : ℕ) :
    (enc w h mime ((st.lowQ + st.highQ) / 2) = none →
      phase1Step enc mime T w h st =
        (⟨w, h, mime, (st.lowQ + st.highQ) / 2, none⟩, P1Res.finished st)) ∧
    (enc w h mime (sweepQ qIter) = none →
      phase2Inner enc mime T w h qIter (rem + 1) best bsize =
        ⟨⟨w, h, mime, sweepQ qIter, none⟩ ::
            (phase2Inner enc mime T w h (qIter + 1) rem best bsize).atts,
          (phase2Inner enc mime T w h (qIter + 1) rem best bsize).found,
          (phase2Inner enc mime T w h (qIter + 1) rem best bsize).bestBlob,
          (phase2Inner enc mime T w h (qIter + 1) rem best bsize).bestSize⟩) := by
  constructor
  · intro hn
    rw [← p1Mid_eq st] at hn
    rw [phase1Step_none enc mime T w h st hn, p1Mid_eq]
  · intro hn
    rw [phase2Inner]
    simp only [hn]

/-- Witness for the C9 theorem: an always-failing encoder leaves the
Phase-1 state untouched. -/
theorem transient_failure_keeps_window_witness :
    phase1Step (fun _ _ _ _ => none) Mime.jpeg 100 10 10 ⟨mkq 1 4, mkq 3 4, none, 0⟩ =
      (⟨10, 10, Mime.jpeg, (mkq 1 4 + mkq 3 4) / 2, none⟩,
       P1Res.finished ⟨mkq 1 4, mkq 3 4, none, 0⟩) :=
  (transient_failure_keeps_window (fun _ _ _ _ => none) Mime.jpeg 100 10 10
    ⟨mkq 1 4, mkq 3 4, none, 0⟩ 0 0 none 0).1 rfl

/-! ### C4 — Phase-2 downscale ladder -/

/-- C4 (confirmed): the ladder shrinks the width by `0.88` in the first
round and `0.78` in every later round (inside the claimed `0.88-0.9` and
`0.78-0.82` bands); it stops as soon as the shrunk width drops under the
200 px floor, and is bounded by `MAX_DOWNS = 8` rounds (within the
claimed 6-8); each round runs the 5-step strictly descending quality
sweep `q = 0.12 + 0.86 (1 - qIter/5)`, a sweep step whose encode lands
at or under the budget is returned immediately as the round's result,
and the outer ladder returns that found blob. -/
theorem downscale_ladder (enc : EncOracle) (mime : Mime) (T : ℤ) (aspect : ℚ)
    (attempt rem currentW : ℕ) (best : Option Blob) (bsize : ℕ)
    (w2 h2 qIter s : ℕ) (fb : Blob) :
    MAX_DOWNS = 8 ∧ 6 ≤ MAX_DOWNS ∧ MAX_DOWNS ≤ 8 ∧ P2_INNER_ITERS = 5 ∧
    phase2Factor 0 = 88 / 100 ∧ (∀ n, n ≠ 0 → phase2Factor n = 78 / 100) ∧
    (∀ i : ℕ, sweepQ i = 12 / 100 + 86 / 100 * (1 - (i : ℚ) / 5)) ∧
    (∀ i : ℕ, sweepQ (i + 1) < sweepQ i) ∧
    (jroundN (qmul (currentW : ℚ) (phase2Factor attempt)) < 200 →
      phase2Outer enc mime T aspect attempt (rem + 1) currentW best bsize =
        ⟨[], none, best, bsize⟩) ∧
    (enc w2 h2 mime (sweepQ qIter) = some s → (s : ℤ) ≤ T →
      phase2Inner enc mime T w2 h2 qIter (rem + 1) best bsize =
        ⟨[⟨w2, h2, mime, sweepQ qIter, some s⟩], some ⟨w2, h2, sweepQ qIter, s⟩,
          best, bsize⟩) ∧
    (¬jroundN (qmul (currentW : ℚ) (phase2Factor attempt)) < 200 →
      (phase2Inner enc mime T (jroundN (qmul (currentW : ℚ) (phase2Factor attempt)))
          (scaledDim (jroundN (qmul (currentW : ℚ) (phase2Factor attempt))) aspect) 0
          P2_INNER_ITERS best bsize).found = some fb →
      (phase2Outer enc mime T aspect attempt (rem + 1) currentW best bsize).found =
        some fb) := by
  refine ⟨rfl, by norm_num [MAX_DOWNS], by norm_num [MAX_DOWNS], rfl,
    by norm_num [phase2Factor, mkq_eq], ?_, ?_, ?_, ?_, ?_, ?_⟩
  · intro n hn
    rw [phase2Factor, if_neg hn]
    norm_num [mkq_eq]
  · intro i
    simp [sweepQ, mkq_eq]
  · intro i
    simp only [sweepQ, qadd_eq, qmul_eq, qsub_eq, qdiv_eq, mkq_eq]
    push_cast
    linarith
  · intro hlt
    rw [phase2Outer, if_pos hlt]
  · intro hs hle
    rw [phase2Inner]
    simp only [hs, if_pos hle]
  · intro hge hfound
    rw [phase2Outer, if_neg hge]
    simp only [hfound]

/-- Witness for the C4 theorem: from width 100 the first shrink gives
88 < 200 and the ladder stops with no attempt; and a sweep whose first
encode fits the budget returns that blob immediately. -/
theorem downscale_ladder_witness :
    phase2Outer (fun _ _ _ _ => some 50) Mime.jpeg 100 1 0 (7 + 1) 100 none 0 =
      ⟨[], none, none, 0⟩ ∧
    phase2Inner (fun _ _ _ _ => some 50) Mime.jpeg 100 300 300 0 (4 + 1) none 0 =
      ⟨[⟨300, 300, Mime.jpeg, sweepQ 0, some 50⟩], some ⟨300, 300, sweepQ 0, 50⟩,
        none, 0⟩ := by
  constructor
  · exact (downscale_ladder (fun _ _ _ _ => some 50) Mime.jpeg 100 1 0 7 100 none 0
      300 300 0 50 ⟨0, 0, 0, 0⟩).2.2.2.2.2.2.2.2.1 (by decide)
  · exact (downscale_ladder (fun _ _ _ _ => some 50) Mime.jpeg 100 1 0 4 100 none 0
      300 300 0 50 ⟨0, 0, 0, 0⟩).2.2.2.2.2.2.2.2.2.1 rfl (by decide)

/-! ### Phase-1 and Phase-2 invariants for the best-effort claims -/

/-- Invariant of the Phase-1 candidate pair: when `bestBlob` is present,
`bestSize` is its size and the candidate is at or under the budget. -/
def p1Good (T : ℤ) (st : P1State) : Prop :=
  ∀ b, st.bestBlob = some b → st.bestSize = b.size ∧ (b.size : ℤ) ≤ T

theorem phase1Step_finished (enc : EncOracle) (mime : Mime) (T : ℤ) (w h : ℕ)
    (st : P1State) (att : Attempt) (st1 : P1State)
    (hst : phase1Step enc mime T w h st = (att, P1Res.finished st1)) :
    (p1Good T st → p1Good T st1) ∧
    (st.bestBlob.isSome → st1.bestBlob.isSome) ∧
    (∀ s, att.result = some s → (s : ℤ) ≤ T → st1.bestBlob.isSome) := by
  rcases henc : enc w h mime (p1Mid st) with _ | s
  · rw [phase1Step_none enc mime T w h st henc] at hst
    injection hst with h1 h2
    injection h2 with h3
    subst h3
    refine ⟨id, id, ?_⟩
    intro s hs
    rw [← h1] at hs
    simp at hs
  · rw [phase1Step_some enc mime T w h st s henc] at hst
    split_ifs at hst with h1 h2 h3
    · simp [Prod.ext_iff] at hst
    · injection hst with ha hb
      injection hb with hc
      subst hc
      refine ⟨id, id, ?_⟩
      intro s2 hs2 hle
      rw [← ha] at hs2
      simp only [Attempt.mk.injEq] at hs2
      exfalso
      have : s2 = s := by
        cases hs2
        rfl
      omega
    · injection hst with ha hb
      injection hb with hc
      subst hc
      have hsle : (s : ℤ) ≤ T := not_lt.mp h2
      refine ⟨?_, ?_, ?_⟩
      · intro _ b hb2
        simp only [Option.some.injEq] at hb2
        subst hb2
        exact ⟨rfl, hsle⟩
      · intro _
        simp
      · intro _ _ _
        simp
    · injection hst with ha hb
      injection hb with hc
      subst hc
      refine ⟨?_, ?_, ?_⟩
      · intro hg b hb2
        exact hg b hb2
      · intro hsome
        exact hsome
      · intro _ _ _
        rcases hb3 : st.bestBlob with _ | b
        · exact absurd (Or.inl (by simp [hb3])) h3
        · simp

theorem phase1Loop_finished (enc : EncOracle) (mime : Mime) (T : ℤ) (w h : ℕ) :
    ∀ n st st1, p1Good T st →
      (phase1Loop enc mime T w h n st).2 = P1Res.finished st1 →
      p1Good T st1 ∧
      (st.bestBlob.isSome → st1.bestBlob.isSome) ∧
      ((∃ a ∈ (phase1Loop enc mime T w h n st).1, ∃ s, a.result = some s ∧ (s : ℤ) ≤ T) →
        st1.bestBlob.isSome) := by
  intro n
  induction n with
  | zero =>
    intro st st1 hg hfin
    simp only [phase1Loop] at hfin ⊢
    cases hfin
    exact ⟨hg, id, by simp⟩
  | succ k ih =>
    intro st st1 hg hfin
    rcases hst : phase1Step enc mime T w h st with ⟨att, res⟩
    rw [phase1Loop] at hfin
    rw [hst] at hfin
    cases res with
    | early b => simp at hfin
    | finished stm =>
      simp only at hfin
      have hstep := phase1Step_finished enc mime T w h st att stm hst
      have hihm := ih stm st1 (hstep.1 hg) hfin
      refine ⟨hihm.1, fun hs => hihm.2.1 (hstep.2.1 hs), ?_⟩
      intro hex
      rw [phase1Loop, hst] at hex
      simp only [List.mem_cons] at hex
      rcases hex with ⟨a, (rfl | ha), s, hres, hle⟩
      · exact hihm.2.1 (hstep.2.2 s hres hle)
      · exact hihm.2.2 ⟨a, ha, s, hres, hle⟩

theorem phase1Loop_never (enc : EncOracle) (mime : Mime) (T : ℤ) (w h : ℕ)
    (hover : ∀ q s, enc w h mime q = some s → T < (s : ℤ)) :
    ∀ n st, st.bestBlob = none → st.bestSize = 0 →
      ∃ st1, (phase1Loop enc mime T w h n st).2 = P1Res.finished st1 ∧
        st1.bestBlob = none ∧ st1.bestSize = 0 := by
  intro n
  induction n with
  | zero =>
    intro st hn hz
    exact ⟨st, rfl, hn, hz⟩
  | succ k ih =>
    intro st hn hz
    rcases henc : enc w h mime (p1Mid st) with _ | s
    · obtain ⟨st1, h1, h2, h3⟩ := ih st hn hz
      refine ⟨st1, ?_, h2, h3⟩
      rw [phase1Loop, phase1Step_none enc mime T w h st henc]
      exact h1
    · have hgt : T < (s : ℤ) := hover _ s henc
      have hband : ¬((s : ℤ) ≤ T ∧ qmul (T : ℚ) TARGET_TOLERANCE ≤ (s : ℚ)) := by
        rintro ⟨hc, -⟩
        omega
      obtain ⟨st1, h1, h2, h3⟩ := ih ⟨st.lowQ, p1Mid st, st.bestBlob, st.bestSize⟩ hn hz
      refine ⟨st1, ?_, h2, h3⟩
      rw [phase1Loop, phase1Step_some enc mime T w h st s henc, if_neg hband, if_pos hgt]
      exact h1

theorem phase2Inner_never (enc : EncOracle) (mime : Mime) (T : ℤ) (w h : ℕ)
    (hover : ∀ q s, enc w h mime q = some s → T < (s : ℤ)) :
    ∀ rem qIter, (phase2Inner enc mime T w h qIter rem none 0).found = none ∧
      (phase2Inner enc mime T w h qIter rem none 0).bestBlob = none ∧
      (phase2Inner enc mime T w h qIter rem none 0).bestSize = 0 := by
  intro rem
  induction rem with
  | zero => intro qIter; exact ⟨rfl, rfl, rfl⟩
  | succ k ih =>
    intro qIter
    rcases henc : enc w h mime (sweepQ qIter) with _ | s
    · rw [phase2Inner]
      simp only [henc]
      exact ih (qIter + 1)
    · have hgt : T < (s : ℤ) := hover _ s henc
      rw [phase2Inner]
      simp only [henc, if_neg (not_le.mpr hgt), if_neg (by omega : ¬s < 0)]
      exact ih (qIter + 1)

theorem phase2Outer_never (enc : EncOracle) (mime : Mime) (T : ℤ) (aspect : ℚ)
    (hover : ∀ w2 h2 q s, enc w2 h2 mime q = some s → T < (s : ℤ)) :
    ∀ rem attempt currentW,
      (phase2Outer enc mime T aspect attempt rem currentW none 0).found = none ∧
      (phase2Outer enc mime T aspect attempt rem currentW none 0).bestBlob = none ∧
      (phase2Outer enc mime T aspect attempt rem currentW none 0).bestSize = 0 := by
  intro rem
  induction rem with
  | zero => intro attempt currentW; exact ⟨rfl, rfl, rfl⟩
  | succ k ih =>
    intro attempt currentW
    rw [phase2Outer]
    by_cases hlt : jroundN (qmul (currentW : ℚ) (phase2Factor attempt)) < 200
    · rw [if_pos hlt]
      exact ⟨rfl, rfl, rfl⟩
    · rw [if_neg hlt]
      have hin := phase2Inner_never enc mime T
        (jroundN (qmul (currentW : ℚ) (phase2Factor attempt)))
        (scaledDim (jroundN (qmul (currentW : ℚ) (phase2Factor attempt))) aspect)
        (fun q s hs => hover _ _ q s hs) P2_INNER_ITERS 0
      simp only [hin.1, hin.2.1, hin.2.2]
      exact ih (attempt + 1) (jroundN (qmul (currentW : ℚ) (phase2Factor attempt)))

/-! ### C1 — budget invariant / best-effort result -/

/-- C1 (counterexample): a jpeg run on a 500x500 source with budget
100000 where the early-exit probe (quality 0.9) yields 50000 bytes — at
or under the budget, but below the 95% tolerance so it is discarded —
and every other encode yields 200000 bytes.  The run records the
50000-byte attempt (the very first attempt of the run) yet returns the
final fallback encode of 200000 bytes, which exceeds the budget; it is a
fresh encode, not the smallest-size attempt observed (50000). -/
theorem budget_invariant_counterexample :
    (compressRun (fun _ _ _ q => if q = mkq 9 10 then some 50000 else some 200000)
        ⟨500, 500⟩ ⟨Mime.jpeg, mkq 82 100, 100000, 0, false⟩).1.head? =
      some ⟨500, 500, Mime.jpeg, mkq 9 10, some 50000⟩ ∧
    (compressRun (fun _ _ _ q => if q = mkq 9 10 then some 50000 else some 200000)
        ⟨500, 500⟩ ⟨Mime.jpeg, mkq 82 100, 100000, 0, false⟩).2 =
      Except.ok (some ⟨400, 400, mkq 12 100, 200000⟩) ∧
    (50000 : ℤ) ≤ 100000 ∧ (100000 : ℤ) < 200000 := by
  refine ⟨by decide, by decide, by decide, by decide⟩

/-- C1 (amended, proved): (a) if any Phase-1 attempt produced a buffer at
or under the budget, the blob returned by the budgeted search is at or
under the budget; (b) if every successful encode of the run exceeds the
budget, the search returns the result of a fresh final encode at width
`max(400, round(0.6 * initialW))` and quality 0.12 — a best-effort result
that is not the smallest-size attempt observed and may exceed the
budget. -/
theorem budget_invariant_amended (enc : EncOracle) (mime : Mime) (T : ℤ)
    (estimatedQ aspect : ℚ) (targetW targetH initialW : ℕ) :
    ((∃ a ∈ (phase1Loop enc mime T targetW targetH Q_ITER (p1Init estimatedQ)).1,
        ∃ s, a.result = some s ∧ (s : ℤ) ≤ T) →
      ∃ b, (budgetSearch enc mime T estimatedQ aspect targetW targetH initialW).2 = some b ∧
        (b.size : ℤ) ≤ T) ∧
    ((∀ w2 h2 q s, enc w2 h2 mime q = some s → T < (s : ℤ)) →
      (budgetSearch enc mime T estimatedQ aspect targetW targetH initialW).2 =
        (enc (max 400 (jroundN (qmul (initialW : ℚ) (mkq 6 10))))
            (scaledDim (max 400 (jroundN (qmul (initialW : ℚ) (mkq 6 10)))) aspect) mime
            (mkq 12 100)).map
          (fun s => ⟨max 400 (jroundN (qmul (initialW : ℚ) (mkq 6 10))),
            scaledDim (max 400 (jroundN (qmul (initialW : ℚ) (mkq 6 10)))) aspect,
            mkq 12 100, s⟩)) := by
  constructor
  · intro hex
    rcases hp1 : phase1Loop enc mime T targetW targetH Q_ITER (p1Init estimatedQ) with ⟨a1, res⟩
    cases res with
    | early b =>
      have hband := phase1Loop_early_band enc mime T targetW targetH Q_ITER
        (p1Init estimatedQ) b (by rw [hp1])
      refine ⟨b, ?_, hband.1⟩
      rw [budgetSearch, hp1]
    | finished st =>
      have hg0 : p1Good T (p1Init estimatedQ) := by
        intro b hb
        simp [p1Init] at hb
      have hfin := phase1Loop_finished enc mime T targetW targetH Q_ITER
        (p1Init estimatedQ) st hg0 (by rw [hp1])
      rw [hp1] at hfin
      rw [hp1] at hex
      have hsome := hfin.2.2 hex
      rcases Option.isSome_iff_exists.mp hsome with ⟨b, hb⟩
      have hgb := hfin.1 b hb
      refine ⟨b, ?_, hgb.2⟩
      rw [budgetSearch, hp1]
      dsimp only
      rw [if_pos ⟨by simp [hb], Or.inl (by rw [hgb.1]; exact_mod_cast hgb.2)⟩, hb]
  · intro hover
    obtain ⟨st1, hst1, hnone, hzero⟩ := phase1Loop_never enc mime T targetW targetH
      (fun q s hs => hover _ _ q s hs) Q_ITER (p1Init estimatedQ) (by simp [p1Init])
      (by simp [p1Init])
    rcases hp1 : phase1Loop enc mime T targetW targetH Q_ITER (p1Init estimatedQ) with ⟨a1, res⟩
    rw [hp1] at hst1
    simp only at hst1
    subst hst1
    rw [budgetSearch, hp1]
    dsimp only
    rw [if_neg (by simp [hnone])]
    have hout := phase2Outer_never enc mime T aspect hover MAX_DOWNS 0 targetW
    rw [hnone, hzero]
    simp only [hout.1, hout.2.1]

/-- Witness for the C1 amended theorem: with a constant 90-byte encoder
and budget 100 the first Phase-1 attempt is under budget and the returned
blob is under budget; with a constant 200-byte encoder the search falls
through to the final 0.12-quality fallback encode. -/
theorem budget_invariant_amended_witness :
    (∃ b, (budgetSearch (fun _ _ _ _ => some 90) Mime.jpeg 100 (mkq 1 2) 1 100 100 100).2 =
        some b ∧ (b.size : ℤ) ≤ 100) ∧
    (budgetSearch (fun _ _ _ _ => some 200) Mime.jpeg 100 (mkq 1 2) 1 100 100 100).2 =
      some ⟨400, 400, mkq 12 100, 200⟩ := by
  constructor
  · exact (budget_invariant_amended (fun _ _ _ _ => some 90) Mime.jpeg 100
      (mkq 1 2) 1 100 100 100).1
      ⟨⟨100, 100, Mime.jpeg, p1Mid (p1Init (mkq 1 2)), some 90⟩, by decide, 90, rfl, by decide⟩
  · have h := (budget_invariant_amended (fun _ _ _ _ => some 200) Mime.jpeg 100
      (mkq 1 2) 1 100 100 100).2
      (fun _ _ _ s hs => by simp only [Option.some.injEq] at hs; omega)
    rw [h]
    decide

/-! ### C5 — null results despite successful attempts -/

/-- C5 (counterexample): a jpeg run on a 500x500 source with budget
100000 where every encode succeeds with 200000 bytes except the final
fallback encode at quality 0.12, which fails.  Over thirty encode
attempts succeed (the first one shown below), yet the run returns a null
blob (`Except.ok none`) — contradicting the claim that a failed result is
surfaced only when every attempt failed. -/
theorem usable_buffer_counterexample :
    (compressRun (fun _ _ _ q => if q = mkq 12 100 then none else some 200000)
        ⟨500, 500⟩ ⟨Mime.jpeg, mkq 82 100, 100000, 0, false⟩).2 = Except.ok none ∧
    (compressRun (fun _ _ _ q => if q = mkq 12 100 then none else some 200000)
        ⟨500, 500⟩ ⟨Mime.jpeg, mkq 82 100, 100000, 0, false⟩).1.head? =
      some ⟨500, 500, Mime.jpeg, mkq 9 10, some 200000⟩ := by
  refine ⟨by decide, by decide⟩

/-- C5 (amended, proved): the budgeted search returns a null blob only
when it reaches Phase 3 and the final fallback encode at quality 0.12
itself fails; every Phase-1/Phase-2 exit path returns a present blob
(but earlier successful attempts do not prevent the null result). -/
theorem null_result_only_from_final_encode (enc : EncOracle) (mime : Mime) (T : ℤ)
    (estimatedQ aspect : ℚ) (targetW targetH initialW : ℕ)
    (hnull : (budgetSearch enc mime T estimatedQ aspect targetW targetH initialW).2 = none) :
    enc (max 400 (jroundN (qmul (initialW : ℚ) (mkq 6 10))))
      (scaledDim (max 400 (jroundN (qmul (initialW : ℚ) (mkq 6 10)))) aspect) mime
      (mkq 12 100) = none := by
  rcases hp1 : phase1Loop enc mime T targetW targetH Q_ITER (p1Init estimatedQ) with ⟨a1, res⟩
  rw [budgetSearch, hp1] at hnull
  cases res with
  | early b => simp at hnull
  | finished st =>
    dsimp only at hnull
    by_cases hcond : st.bestBlob.isSome = true ∧
        ((st.bestSize : ℤ) ≤ T ∨ (st.bestSize : ℚ) ≤ qmul (T : ℚ) (mkq 102 100))
    · rw [if_pos hcond] at hnull
      rcases Option.isSome_iff_exists.mp hcond.1 with ⟨b, hb⟩
      rw [hb] at hnull
      simp at hnull
    · rw [if_neg hcond] at hnull
      rcases hfound : (phase2Outer enc mime T aspect 0 MAX_DOWNS targetW st.bestBlob
          st.bestSize).found with _ | fb
      · rw [hfound] at hnull
        rcases hbest : (phase2Outer enc mime T aspect 0 MAX_DOWNS targetW st.bestBlob
            st.bestSize).bestBlob with _ | b2
        · rw [hbest] at hnull
          simpa using hnull
        · rw [hbest] at hnull
          simp at hnull
      · rw [hfound] at hnull
        simp at hnull

/-- Witness for the C5 amended theorem: a search where every quality
except 0.12 encodes to 200000 bytes over a 100000 budget returns null,
and indeed the final fallback encode is the failing one. -/
theorem null_result_only_from_final_encode_witness :
    (fun _ _ _ q => if q = mkq 12 100 then none else some (200000 : ℕ) : EncOracle)
      (max 400 (jroundN (qmul ((100 : ℕ) : ℚ) (mkq 6 10))))
      (scaledDim (max 400 (jroundN (qmul ((100 : ℕ) : ℚ) (mkq 6 10)))) 1) Mime.jpeg
      (mkq 12 100) = none :=
  null_result_only_from_final_encode
    (fun _ _ _ q => if q = mkq 12 100 then none else some 200000) Mime.jpeg 100000
    (mkq 9 10) 1 100 100 100 (by decide)

/-! ### C2 — the no-budget path -/

theorem codeTargetDims_eq_spec (src : SrcImage) (mw : ℕ) :
    codeTargetDims src.width src.height mw = specNoBudgetDims src mw := by
  rw [codeTargetDims, specNoBudgetDims]
  by_cases hcond : mw ≠ 0 ∧ mw < (absClamp src.width src.height).1
  · have hc1 : ((absClamp src.width src.height).1 : ℚ) ≠ 0 := by
      have : 0 < (absClamp src.width src.height).1 := by omega
      exact_mod_cast this.ne'
    have hW : scaledDim (absClamp src.width src.height).1
        (qdiv (mw : ℚ) ((absClamp src.width src.height).1 : ℚ)) = mw := by
      rw [scaledDim]
      have hq : qmul ((absClamp src.width src.height).1 : ℚ)
          (qdiv (mw : ℚ) ((absClamp src.width src.height).1 : ℚ)) = (mw : ℚ) := by
        rw [qmul_eq, qdiv_eq, mul_comm, div_mul_cancel₀ _ hc1]
      rw [hq, jroundN_natCast]
    simp only [if_pos hcond, hW]
    rfl
  · simp only [if_neg hcond]
    rfl

theorem compressRun_noJpeg (enc : EncOracle) (src : SrcImage) (o : Opts)
    (hm : o.mime ≠ Mime.jpeg) (hT : o.targetBytes ≤ 0) :
    compressRun enc src o = compressTail enc o src.width src.height o.quality [] := by
  have h1 : ¬(0 < o.targetBytes ∧ o.mime = Mime.jpeg ∧ o.pngOptimized = false ∧
      o.quality < mkq 85 100) := by
    rintro ⟨h, -⟩
    omega
  have h2 : ¬(o.mime = Mime.jpeg ∧ 0 < o.targetBytes ∧ o.pngOptimized = false ∧
      qdiv (o.targetBytes : ℚ) (qmul (src.width : ℚ) (src.height : ℚ)) < mkq 12 1000) := by
    rintro ⟨h, -⟩
    exact hm h
  have h3 : ¬(o.targetBytes = 0 ∧ o.mime = Mime.jpeg ∧ o.quality < mkq 45 100 ∧
      800 < max src.width src.height) := by
    rintro ⟨-, h, -⟩
    exact hm h
  have h4 : ¬(o.mime = Mime.jpeg ∧ LONG_EDGE_MAX o.targetBytes < max src.width src.height) := by
    rintro ⟨h, -⟩
    exact hm h
  have h5 : ¬(o.pngOptimized = false ∧ o.mime = Mime.jpeg ∧ 0 < o.targetBytes) := by
    rintro ⟨-, h, -⟩
    exact hm h
  rw [compressRun]
  dsimp only
  rw [if_neg h1, if_neg h2, stepRoundtrip_not enc _ h3]
  dsimp only
  rw [stepRoundtrip_not enc _ (by norm_num : ¬((1 : ℚ) < 1))]
  dsimp only
  rw [stepRoundtrip_not enc _ h4]
  dsimp only
  rw [if_neg h5]
  simp

/-- C2 (counterexample): a JPEG request with no byte budget on a
2000x1000 source (well under the 8192 ceiling, no max-width hint) is
hard-clamped by the JPEG-only `LONG_EDGE_MAX = 1000` resize: the run
performs two encodes (an intermediate PNG round-trip plus the final
encode) and returns a 1000x500 blob, while the claim predicts exactly one
attempt at the unchanged 2000x1000 dimensions. -/
theorem no_budget_counterexample :
    (compressRun (fun _ _ _ _ => some 1000) ⟨2000, 1000⟩
        ⟨Mime.jpeg, mkq 82 100, 0, 0, false⟩).1.length = 2 ∧
    (compressRun (fun _ _ _ _ => some 1000) ⟨2000, 1000⟩
        ⟨Mime.jpeg, mkq 82 100, 0, 0, false⟩).2 =
      Except.ok (some ⟨1000, 500, mkq 82 100, 1000⟩) ∧
    specNoBudgetDims ⟨2000, 1000⟩ 0 = (2000, 1000) := by
  refine ⟨by decide, by decide, by decide⟩

/-- C2 (amended, proved): for a non-JPEG request with no byte budget the
run performs exactly one resample+encode attempt, at the source
dimensions clamped only by the 8192 px long-edge ceiling and the
max-width hint, and returns that encode's result; for JPEG the working
source is additionally hard-clamped (slider safeguard at 800 px,
`LONG_EDGE_MAX` at 1000 px) with extra intermediate encodes, as the
counterexample shows. -/
theorem no_budget_single_encode (enc : EncOracle) (src : SrcImage) (o : Opts)
    (hm : o.mime ≠ Mime.jpeg) (hT : o.targetBytes ≤ 0) :
    (compressRun enc src o).1 =
      [⟨(specNoBudgetDims src o.maxWidth).1, (specNoBudgetDims src o.maxWidth).2, o.mime,
        o.quality,
        enc (specNoBudgetDims src o.maxWidth).1 (specNoBudgetDims src o.maxWidth).2 o.mime
          o.quality⟩] ∧
    (compressRun enc src o).2 =
      Except.ok ((enc (specNoBudgetDims src o.maxWidth).1 (specNoBudgetDims src o.maxWidth).2
          o.mime o.quality).map
        (fun s => ⟨(specNoBudgetDims src o.maxWidth).1, (specNoBudgetDims src o.maxWidth).2,
          o.quality, s⟩)) := by
  rw [compressRun_noJpeg enc src o hm hT, compressTail,
    ← codeTargetDims_eq_spec src o.maxWidth]
  dsimp only
  rw [if_pos hT]
  simp

/-- Witness for the C2 amended theorem: a PNG request with no budget on a
300x200 source performs exactly one attempt at the unchanged dimensions. -/
theorem no_budget_single_encode_witness :
    (compressRun (fun _ _ _ _ => some 500) ⟨300, 200⟩
        ⟨Mime.png, mkq 82 100, 0, 0, false⟩).1 =
      [⟨300, 200, Mime.png, mkq 82 100, some 500⟩] := by
  have h := (no_budget_single_encode (fun _ _ _ _ => some 500) ⟨300, 200⟩
    ⟨Mime.png, mkq 82 100, 0, 0, false⟩ (by decide) (by decide)).1
  rw [h]
  decide
